import Mathlib

/-!
# Verification of the jijibaba-taijyu goal-progress and reconciliation core

Shallow embedding of the TypeScript source (`src/app/page.tsx`,
`src/components/home-view.tsx`) into Lean 4.

Modelling conventions:
* JavaScript numbers that hold weights or points are modelled as `ℚ`
  (all values appearing in the program are finite decimals; the
  `Number.isFinite` guards of the source are noted where they occur —
  non-finite floats have no counterpart in `ℚ`).
* `DateKey`s (`YYYY-MM-DD`) are `String`s ordered lexicographically,
  matching `localeCompare` on ASCII digit/hyphen strings.
* Timestamps (`Date.now()`, `created_at`) are modelled as milliseconds
  since the epoch (`Int`); `Date.toISOString` is strictly monotone in
  this value, so order claims transfer.
* Fallible store calls return explicit result values.
-/

/-! ## Points Ledger Reconciler (`applyProfilePointDelta`, page.tsx 615–632)

The body reads the current points (`Number(currentRes.data?.points ?? 0)`,
non-finite coerced to 0), computes `Math.max(0, safeCurrent + delta)` and
writes it back.  `applyDelta` is one such read-modify-write step on the
stored balance; `applyDeltas` is a sequence of such calls. -/

def applyDelta (current delta : ℚ) : ℚ := max 0 (current + delta)

def applyDeltas (current : ℚ) (ds : List ℚ) : ℚ := ds.foldl applyDelta current

/-! ## Goal Engine: period progress ratio (home-view.tsx 176–187, 691–693) -/

def clamp (n mn mx : ℚ) : ℚ := min mx (max mn n)

/-- The `periodProgress` ratio computation of home-view.tsx 176–187:
`denom = goal - base`; if `denom === 0` the ratio is `1` when
`currentWeight === goal` else `0`; otherwise
`clamp((currentWeight - base) / denom, 0, 1)`. -/
def periodProgressRatio (currentWeight base goal : ℚ) : ℚ :=
  if goal - base = 0 then (if currentWeight = goal then 1 else 0)
  else clamp ((currentWeight - base) / (goal - base)) 0 1

/-! ## Goal Engine: day/week/month comparison (home-view.tsx 37–48) -/

/-- Weight history entry as consumed by `HomeView`
(`{ date: string; weight: number; isoDate?: string }`). -/
structure HomeWeightItem where
  date : String
  weight : ℚ
  isoDate : Option String
deriving DecidableEq, Repr

/-- `calculateComparison(weightHistory, currentWeight, daysAgo)`:
returns `{diff: 0, hasData: false}` when the series has fewer than
`daysAgo + 1` samples, otherwise
`{diff: currentWeight - weightHistory[len-1-daysAgo].weight, hasData: true}`.
The pair is `(diff, hasData)`. -/
def calculateComparison (weightHistory : List HomeWeightItem)
    (currentWeight : ℚ) (daysAgo : ℕ) : ℚ × Bool :=
  if weightHistory.length < daysAgo + 1 then (0, false)
  else
    match (weightHistory.get? (weightHistory.length - 1 - daysAgo)).map
        (fun h => h.weight) with
    | none => (0, false)
    | some past => (currentWeight - past, true)

/-! ## Reward redemption (`handleRedeemReward`, page.tsx 952–979) -/

structure RewardDefinition where
  id : String
  title : String
  cost : ℚ
  icon : String
deriving DecidableEq, Repr

structure RewardHistoryItem where
  id : String
  title : String
  cost : ℚ
  occurredAt : Int
  isDummy : Bool := false
deriving DecidableEq, Repr

/-- Everything `handleRedeemReward` changes: the local reward history,
the local points balance, the rows inserted into `reward_history`, and
the deltas passed to `applyProfilePointDelta`. -/
structure RedeemOutcome where
  rewardHistory : List RewardHistoryItem
  points : ℚ
  insertedHistoryRows : List (String × ℚ)
  appliedDeltas : List ℚ
deriving DecidableEq, Repr

/-- `handleRedeemReward(rewardId)` (page.tsx 952–979): looks the reward up
in `rewardDefinitions`; only when it exists and `points >= reward.cost`
does it prepend a history item (capped at 20), subtract the cost from the
local balance, insert a `reward_history` row and apply a `-cost` point
delta.  `newId` stands for the `makeId("reward-local")` value (the random
suffix is not modelled); `now` is the `new Date().toISOString()` instant. -/
def handleRedeemReward (rewardDefinitions : List RewardDefinition)
    (rewardId : String) (points : ℚ) (rewardHistory : List RewardHistoryItem)
    (newId : String) (now : Int) : RedeemOutcome :=
  match rewardDefinitions.find? (fun r => r.id = rewardId) with
  | some reward =>
    if reward.cost ≤ points then
      { rewardHistory :=
          ({ id := newId, title := reward.title, cost := reward.cost,
             occurredAt := now } :: rewardHistory).take 20
        points := points - reward.cost
        insertedHistoryRows := [(reward.title, reward.cost)]
        appliedDeltas := [-reward.cost] }
    else
      { rewardHistory := rewardHistory, points := points,
        insertedHistoryRows := [], appliedDeltas := [] }
  | none =>
      { rewardHistory := rewardHistory, points := points,
        insertedHistoryRows := [], appliedDeltas := [] }

/-- The 9-sample example series used to witness C6. -/
def exampleSeries9 : List HomeWeightItem :=
  List.replicate 8 ⟨"d", 70, none⟩ ++ [⟨"e", 66, none⟩]

/-! ## History Capper (`padTo20`, `buildDummyQuestHistoryItem`, page.tsx 106–123)

`QuestHistoryItem.occurredAt` is modelled as milliseconds since the epoch;
the source stores `new Date(ms).toISOString()`, which is strictly monotone
in `ms`, so timestamp-order statements transfer.  `makeId`'s random suffix
is not modelled: the dummy id is its deterministic prefix. -/

structure QuestHistoryItem where
  id : String
  title : String
  points : ℚ
  occurredAt : Int
  isDummy : Bool := false
deriving DecidableEq, Repr

/-- The fixed dummy-title palette of `buildDummyQuestHistoryItem`. -/
def dummyQuestTitles : List String :=
  ["トレーニング", "お風呂掃除", "朝の散歩", "ストレッチ", "野菜を食べた", "早寝"]

/-- The fixed dummy-points palette of `buildDummyQuestHistoryItem`. -/
def dummyQuestPointsList : List ℚ := [10, 20, 30, 40, 50, 80, 100]

/-- `buildDummyQuestHistoryItem(userKey, i, offset)` (page.tsx 112–123):
title and points are drawn cyclically from the fixed palettes at index
`(offset + i) % palette.length`, the timestamp is
`Date.now() - (offset + i) * 60 * 60 * 1000`, and `isDummy` is set. -/
def buildDummyQuestHistoryItem (userKey : String) (i offset : ℕ) (now : Int) :
    QuestHistoryItem :=
  { id := "dummy-quest-" ++ userKey ++ "-" ++ toString i
    title := (dummyQuestTitles.get?
        ((offset + i) % dummyQuestTitles.length)).getD "クエスト"
    points := (dummyQuestPointsList.get?
        ((offset + i) % dummyQuestPointsList.length)).getD 10
    occurredAt := now - (offset + i : ℕ) * (60 * 60 * 1000)
    isDummy := true }

/-- The loop of `padTo20` (page.tsx 106–110):
`for (let i = 0; out.length < 20; i++) out.push(makeDummy(i))`. -/
def padLoop {T : Type} (out : List T) (makeDummy : ℕ → T) (i : ℕ) : List T :=
  if out.length < 20 then padLoop (out ++ [makeDummy i]) makeDummy (i + 1) else out
termination_by 20 - out.length
decreasing_by simp only [List.length_append, List.length_cons, List.length_nil]; omega

/-- `padTo20(items, makeDummy)` (page.tsx 106–110): copy `items`, push
`makeDummy(i)` for `i = 0, 1, …` until the length reaches 20, then
`slice(0, 20)`. -/
def padTo20 {T : Type} (items : List T) (makeDummy : ℕ → T) : List T :=
  (padLoop items makeDummy 0).take 20

/-- The single real quest-history entry (timestamp 0, i.e. 1970) used in the
C7 counterexample. -/
def oldRealQuestEntry : QuestHistoryItem :=
  { id := "q-real", title := "朝の散歩", points := 50, occurredAt := 0 }

/-! ## Shared-List Synchronizer legacy-schema fallback
(`isMissingUserColumnError` page.tsx 28–36, `refreshRewards` 398–435)

A store response is its `data` on success or its error `message` on
failure (`isMissingUserColumnError` inspects only `message`). -/

inductive StoreResult (α : Type) where
  | ok (data : α)
  | err (message : String)
deriving DecidableEq, Repr

/-- JavaScript `String.prototype.includes`: `pat` occurs as a contiguous
substring of `s`. -/
def strContainsSub (s pat : String) : Bool :=
  (List.range (s.data.length + 1)).any
    (fun k => decide ((s.data.drop k).take pat.data.length = pat.data))

/-- `isMissingUserColumnError(err)` (page.tsx 28–36): true when the message
matches the PostgREST shape (contains `'user' column` and `schema cache`)
or either Postgres shape (contains `column`, `"user"` resp. `user`, and
`does not exist`). -/
def isMissingUserColumnError (msg : String) : Bool :=
  if strContainsSub msg "'user' column" && strContainsSub msg "schema cache" then
    true
  else if strContainsSub msg "column" && strContainsSub msg "\"user\"" &&
      strContainsSub msg "does not exist" then
    true
  else if strContainsSub msg "column" && strContainsSub msg "user" &&
      strContainsSub msg "does not exist" then
    true
  else
    false

/-- Whether the unscoped retry is performed: `refreshRewards` (page.tsx
404–410) issues the second, unscoped query exactly when
`withUser.error && isMissingUserColumnError(withUser.error)`. -/
def fallbackRetried {α : Type} (withUser : StoreResult α) : Bool :=
  match withUser with
  | .err m => isMissingUserColumnError m
  | .ok _ => false

/-- The resolved result `res` of the scoped-then-fallback pattern
(page.tsx 404–410): the unscoped attempt's result when the scoped attempt
failed with the missing-user-column error, the scoped result otherwise. -/
def resolveWithFallback {α : Type} (withUser withoutUser : StoreResult α) :
    StoreResult α :=
  match withUser with
  | .err m => if isMissingUserColumnError m then withoutUser else withUser
  | .ok _ => withUser

/-- The error messages `refreshRewards` surfaces via `logSupabaseError`
(page.tsx 412–413): the scoped error only when it is not the
missing-user-column error, plus the resolved result's error if any. -/
def surfacedErrors {α : Type} (withUser withoutUser : StoreResult α) :
    List String :=
  (match withUser with
   | .err m => if isMissingUserColumnError m then [] else [m]
   | .ok _ => []) ++
  (match resolveWithFallback withUser withoutUser with
   | .err m => [m]
   | .ok _ => [])

/-- The PostgREST message quoted in the source comment (page.tsx 30). -/
def postgrestMissingUserMsg : String :=
  "Could not find the 'user' column of 'quests' in the schema cache"

/-! ## DateKey comparison

JavaScript compares strings (`<`, `<=`, and the `localeCompare` sort
comparator on `YYYY-MM-DD` keys) lexicographically by code unit.
`charListLt` is that order on the character list of a string. -/

def charListLt : List Char → List Char → Bool
  | [], [] => false
  | [], _ :: _ => true
  | _ :: _, [] => false
  | a :: as, b :: bs =>
    if a < b then true else if b < a then false else charListLt as bs

/-- JS `a < b` on date-key strings. -/
def dateLt (a b : String) : Bool := charListLt a.data b.data

/-- JS `a <= b` on date-key strings: `!(b < a)`. -/
def dateLe (a b : String) : Bool := !(dateLt b a)

/-! ## History Series upsert (`handleRecordWeight`, page.tsx 839–906)

The optimistic updater (lines 846–856): `findIndex` on
`h.isoDate === safeIso`, replace that first matching entry by
`{ date: dateStr, weight, isoDate: safeIso }` (the spread is fully
overwritten) or push the new entry at the end, then sort ascending by
`isoDate`.  `replaceFirstOrPush` implements first-match-replace-or-append
directly by recursion. -/

structure WeightHistoryItem where
  date : String
  weight : ℚ
  isoDate : String
deriving DecidableEq, Repr

def whLe (a b : WeightHistoryItem) : Prop := dateLe a.isoDate b.isoDate = true

instance : DecidableRel whLe := fun a b =>
  inferInstanceAs (Decidable (_ = true))

def replaceFirstOrPush (safeIso dateStr : String) (w : ℚ) :
    List WeightHistoryItem → List WeightHistoryItem
  | [] => [⟨dateStr, w, safeIso⟩]
  | h :: t =>
    if h.isoDate = safeIso then ⟨dateStr, w, safeIso⟩ :: t
    else h :: replaceFirstOrPush safeIso dateStr w t

/-- The whole optimistic weight-history update of `handleRecordWeight`:
replace-or-push, then sort by `isoDate` (the sort comparator
`a.isoDate.localeCompare(b.isoDate)`; JS sort is stable, as is
`insertionSort`). -/
def upsertWeightHistory (hist : List WeightHistoryItem)
    (safeIso dateStr : String) (w : ℚ) : List WeightHistoryItem :=
  List.insertionSort whLe (replaceFirstOrPush safeIso dateStr w hist)

/-! ## Period goals: save and re-derive (`saveGoalsForActiveUser`, page.tsx 512–613)

The store is modelled as the active user's `period_goals` rows (every
query is `.eq("user", user)`-scoped).  `target_weight` is `number | null`,
hence `Option ℚ`. -/

structure PeriodGoal where
  start_date : String
  end_date : String
  target_weight : Option ℚ
deriving DecidableEq, Repr

/-- `^\d{4}-\d{2}-\d{2}$` on a character list. -/
def isoShapeChars : List Char → Bool
  | [y1, y2, y3, y4, s1, m1, m2, s2, d1, d2] =>
    y1.isDigit && y2.isDigit && y3.isDigit && y4.isDigit &&
    s1 = '-' && m1.isDigit && m2.isDigit && s2 = '-' &&
    d1.isDigit && d2.isDigit
  | _ => false

def isIsoDateShape (s : String) : Bool := isoShapeChars s.data

/-- `normalizeISODate(input)` (page.tsx 1501–1508): non-strings and empty
strings give null (both are `none` here); otherwise the first 10
characters (`slice(0, 10)`) must match `^\d{4}-\d{2}-\d{2}$`. -/
def normalizeISODate (input : Option String) : Option String :=
  match input with
  | none => none
  | some s =>
    if s.data.length = 0 then none
    else if isIsoDateShape ⟨s.data.take 10⟩ then some ⟨s.data.take 10⟩
    else none

/-- The `period_goals` upsert with `onConflict: "user,start_date,end_date"`
(page.tsx 540–552): the row with the same key is replaced, otherwise the
new row is inserted (the store keeps at most one row per key). -/
def upsertPeriodGoalRow (g : PeriodGoal) : List PeriodGoal → List PeriodGoal
  | [] => [g]
  | r :: t =>
    if r.start_date = g.start_date ∧ r.end_date = g.end_date then g :: t
    else r :: upsertPeriodGoalRow g t

/-- The post-save exact re-fetch (page.tsx 573–581): `maybeSingle` row
with the just-saved `start_date`/`end_date` key. -/
def selectExactPeriodGoal (store : List PeriodGoal) (s e : String) :
    Option PeriodGoal :=
  store.find? (fun r => decide (r.start_date = s) && decide (r.end_date = e))

def pgEndLe (a b : PeriodGoal) : Prop := dateLe a.end_date b.end_date = true

instance : DecidableRel pgEndLe := fun a b =>
  inferInstanceAs (Decidable (_ = true))

/-- The "currently active" query (page.tsx 585–597): rows with
`start_date <= today <= end_date`, ordered by `end_date` ascending,
`limit 1`.  The store does not fix the order among equal end dates; the
stable sort realises one admissible order. -/
def selectActivePeriodGoal (store : List PeriodGoal) (todayIso : String) :
    Option PeriodGoal :=
  (List.insertionSort pgEndLe
    (store.filter
      (fun r => dateLe r.start_date todayIso && dateLe todayIso r.end_date))).head?

structure SaveGoalsResult where
  optimisticPeriodGoal : Option PeriodGoal
  store : List PeriodGoal
  finalPeriodGoal : Option PeriodGoal
deriving DecidableEq, Repr

/-- The period-goal path of `saveGoalsForActiveUser` (page.tsx 512–613):
set the UI state to the payload optimistically (line 524–526), upsert the
row (539–552), then re-derive — prefer the exact just-saved row (573–581),
fall back to the currently-active query (585–597) — and set the state from
the fetched row through `normalizeISODate` (599–610; the
`Number(target_weight)` / `Number.isFinite` re-validation is the identity
on `Option ℚ`). -/
def saveGoalsPeriod (store : List PeriodGoal) (g : PeriodGoal)
    (todayIso : String) : SaveGoalsResult :=
  { optimisticPeriodGoal := some g
    store := upsertPeriodGoalRow g store
    finalPeriodGoal :=
      match
        (match selectExactPeriodGoal (upsertPeriodGoalRow g store)
            g.start_date g.end_date with
         | some r => some r
         | none => selectActivePeriodGoal (upsertPeriodGoalRow g store) todayIso)
      with
      | none => none
      | some r =>
        match normalizeISODate (some r.start_date),
            normalizeISODate (some r.end_date) with
        | some s, some e =>
          some { start_date := s, end_date := e,
                 target_weight := r.target_weight }
        | some _, none => none
        | none, _ => none }

/-! ## Goal Engine: baseline weight (`findBaselineWeight`, home-view.tsx 695–728) -/

/-- The flatMap clean-up of `findBaselineWeight` (home-view.tsx 700–706):
entries whose `isoDate` is absent or empty (`!iso`) are dropped;
`Number.isFinite(Number(h.weight))` always holds in the rational model.
The result is the (iso, weight) pairs in input order. -/
def cleanRows (weightHistory : List HomeWeightItem) : List (String × ℚ) :=
  weightHistory.filterMap (fun h =>
    match h.isoDate with
    | none => none
    | some iso => if iso.data.length = 0 then none else some (iso, h.weight))

def rowLe (a b : String × ℚ) : Prop := dateLe a.1 b.1 = true

instance : DecidableRel rowLe := fun a b =>
  inferInstanceAs (Decidable (_ = true))

/-- `rows` of `findBaselineWeight`: the cleaned entries sorted ascending
by the `localeCompare` comparator (home-view.tsx 707). -/
def sortedRows (weightHistory : List HomeWeightItem) : List (String × ℚ) :=
  List.insertionSort rowLe (cleanRows weightHistory)

/-- `findBaselineWeight(weightHistory, startIso, endIso)` (home-view.tsx
695–728): null on an empty cleaned series, else first match of: (1) the
sample exactly on the start date; (2) the first hit scanning the sorted
rows backwards among those strictly before the start date; (3) the first
row within `[startIso, endIso]`; (4) the first row strictly after the
start date. -/
def findBaselineWeight (weightHistory : List HomeWeightItem)
    (startIso endIso : String) : Option ℚ :=
  if (sortedRows weightHistory).length = 0 then none
  else
    match (sortedRows weightHistory).find? (fun r => decide (r.1 = startIso)) with
    | some r => some r.2
    | none =>
      match (sortedRows weightHistory).reverse.find?
          (fun r => dateLt r.1 startIso) with
      | some r => some r.2
      | none =>
        match (sortedRows weightHistory).find?
            (fun r => dateLe startIso r.1 && dateLe r.1 endIso) with
        | some r => some r.2
        | none =>
          match (sortedRows weightHistory).find?
              (fun r => dateLt startIso r.1) with
          | some r => some r.2
          | none => none

/-- Modelled from the spec (§4.2 `findBaseline`, rule 2): "the most recent
sample strictly before startDate" — the sample with the greatest date of
a list. -/
def maxByIso : List (String × ℚ) → Option (String × ℚ)
  | [] => none
  | x :: t =>
    match maxByIso t with
    | none => some x
    | some m => if dateLt m.1 x.1 then some x else some m

/-- Modelled from the spec (§4.2 `findBaseline`, rules 3 and 4): "the
earliest sample" of a list — the one with the least date. -/
def minByIso : List (String × ℚ) → Option (String × ℚ)
  | [] => none
  | x :: t =>
    match minByIso t with
    | none => some x
    | some m => if dateLt x.1 m.1 then some x else some m

/-- Modelled from the spec (§4.2): the four-rule baseline resolution,
first match wins, stated on the unsorted sample set with argmax/argmin
selectors: (1) the sample on `startIso`; (2) the most recent sample
strictly before `startIso`; (3) the earliest sample within
`[startIso, endIso]`; (4) the earliest sample strictly after `startIso`;
otherwise no baseline. -/
def findBaselineSpec (weightHistory : List HomeWeightItem)
    (startIso endIso : String) : Option ℚ :=
  match (cleanRows weightHistory).find? (fun r => decide (r.1 = startIso)) with
  | some r => some r.2
  | none =>
    match maxByIso ((cleanRows weightHistory).filter
        (fun r => dateLt r.1 startIso)) with
    | some r => some r.2
    | none =>
      match minByIso ((cleanRows weightHistory).filter
          (fun r => dateLe startIso r.1 && dateLe r.1 endIso)) with
      | some r => some r.2
      | none =>
        match minByIso ((cleanRows weightHistory).filter
            (fun r => dateLt startIso r.1)) with
        | some r => some r.2
        | none => none

/-! ## `loadLatest` state updates (page.tsx 634–806)

What `loadLatest` does to each piece of per-user UI state, as a pure
function of the previous state and the outcome of each store read.
Rows are modelled already-typed: a field whose `typeof` check fails in
the source is `none` here.  `Number.isFinite` guards hold identically in
the rational model. -/

/-- Digit-string value, for `Number` on the `\d+` parts of a date key. -/
def digitsVal (l : List Char) : ℕ :=
  l.foldl (fun acc c => acc * 10 + (c.toNat - 48)) 0

/-- `toMDFromISO` (page.tsx 1492–1499): split on `-`, parse parts 1 and 2
with `Number`, render `M/D` without leading zeros, or return the input
unchanged when a part is missing or unparsable.  `Number`'s full string
grammar is not modelled: a part counts as a finite number exactly when it
is all digits (`Number("") = 0` included), which agrees with `Number` on
every call-site input (a `normalizeISODate` result). -/
def toMDFromISO (iso : String) : String :=
  match (iso.data.splitOn '-').get? 1, (iso.data.splitOn '-').get? 2 with
  | some m, some d =>
    if m.all Char.isDigit && d.all Char.isDigit then
      toString (digitsVal m) ++ "/" ++ toString (digitsVal d)
    else iso
  | _, _ => iso

/-- A `weights` row as read back (`select("weight, recorded_at")`). -/
structure WeightRow where
  weight : ℚ
  recorded_at : Option String
deriving DecidableEq, Repr

/-- The weights parse of `loadLatest` (page.tsx 735–745): normalize the
date (drop the row otherwise), build the item, sort by `isoDate`. -/
def parseWeightRows (rows : List WeightRow) : List WeightHistoryItem :=
  List.insertionSort whLe (rows.filterMap (fun row =>
    match normalizeISODate row.recorded_at with
    | none => none
    | some iso => some ⟨toMDFromISO iso, row.weight, iso⟩))

/-- A `quest_history` row (`select("id, title, points, created_at")`);
`created_at` in epoch milliseconds, `none` when missing or empty. -/
structure QuestHistoryRow where
  id : Option String
  title : Option String
  points : ℚ
  created_at : Option Int
deriving DecidableEq, Repr

structure RewardHistoryRow where
  id : Option String
  title : Option String
  cost : ℚ
  created_at : Option Int
deriving DecidableEq, Repr

/-- The quest-history parse (page.tsx 761–770): rows with a non-string or
empty title are dropped, a missing `created_at` becomes the current
instant, a missing id gets a generated one (`makeId("quest")`; the random
part is not modelled). -/
def parseQuestRows (rows : List QuestHistoryRow) (now : Int) :
    List QuestHistoryItem :=
  rows.filterMap (fun r =>
    match r.title with
    | none => none
    | some t =>
      if t.data.length = 0 then none
      else
        some { id := r.id.getD "quest", title := t, points := r.points,
               occurredAt := r.created_at.getD now, isDummy := false })

/-- The reward-history parse (page.tsx 790–799), same shape. -/
def parseRewardRows (rows : List RewardHistoryRow) (now : Int) :
    List RewardHistoryItem :=
  rows.filterMap (fun r =>
    match r.title with
    | none => none
    | some t =>
      if t.data.length = 0 then none
      else
        some { id := r.id.getD "reward", title := t, cost := r.cost,
               occurredAt := r.created_at.getD now, isDummy := false })

/-- The fixed dummy palettes of `buildDummyRewardHistoryItem`
(page.tsx 125–136). -/
def dummyRewardTitles : List String :=
  ["コーヒータイム", "お菓子", "孫と電話", "テレビ1時間", "ビール1本", "お買い物"]

def dummyRewardCostList : List ℚ := [10, 30, 50, 60, 80, 100, 200]

def buildDummyRewardHistoryItem (userKey : String) (i offset : ℕ)
    (now : Int) : RewardHistoryItem :=
  { id := "dummy-reward-" ++ userKey ++ "-" ++ toString i
    title := (dummyRewardTitles.get?
        ((offset + i) % dummyRewardTitles.length)).getD "ごほうび"
    cost := (dummyRewardCostList.get?
        ((offset + i) % dummyRewardCostList.length)).getD 30
    occurredAt := now - (offset + i : ℕ) * (60 * 60 * 1000)
    isDummy := true }

/-- The read-backed pieces of one user's UI state that `loadLatest`
touches (besides quests/rewards/wishes catalogs and points). -/
structure LoadState where
  weightHistory : List WeightHistoryItem
  periodGoal : Option PeriodGoal
  questHistory : List QuestHistoryItem
  rewardHistory : List RewardHistoryItem
deriving DecidableEq, Repr

/-- Setting the period-goal state from a fetched row (page.tsx 713–724):
through `normalizeISODate`; null when either date fails. -/
def normalizePGRow (row : PeriodGoal) : Option PeriodGoal :=
  match normalizeISODate (some row.start_date),
      normalizeISODate (some row.end_date) with
  | some s, some e => some ⟨s, e, row.target_weight⟩
  | some _, none => none
  | none, _ => none

/-- The state updates of `loadLatest` (page.tsx 679–804):
* period goal (679–725): left unchanged when the active query errors, or
  when it returns no row and the latest-fallback query errors
  (`didFetch = false`); otherwise set from the fetched row (null when no
  row at all);
* weight history (727–746): set from the rows only on success, left
  unchanged on error;
* quest/reward history (748–804): the items are `[]` when the read
  errors, and the state is then set to `padTo20` of them regardless. -/
def loadLatestUpdate (prev : LoadState) (userKey : String) (now : Int)
    (pgActive pgLatest : StoreResult (List PeriodGoal))
    (weights : StoreResult (List WeightRow))
    (questHist : StoreResult (List QuestHistoryRow))
    (rewardHist : StoreResult (List RewardHistoryRow)) : LoadState :=
  { periodGoal :=
      match pgActive with
      | .err _ => prev.periodGoal
      | .ok rows =>
        match rows.head? with
        | some row => normalizePGRow row
        | none =>
          match pgLatest with
          | .err _ => prev.periodGoal
          | .ok rows2 =>
            match rows2.head? with
            | some row => normalizePGRow row
            | none => none
    weightHistory :=
      match weights with
      | .err _ => prev.weightHistory
      | .ok rows => parseWeightRows rows
    questHistory :=
      match questHist with
      | .err _ =>
        padTo20 [] (fun i => buildDummyQuestHistoryItem userKey i 0 now)
      | .ok rows =>
        padTo20 (parseQuestRows rows now)
          (fun i => buildDummyQuestHistoryItem userKey i
            (parseQuestRows rows now).length now)
    rewardHistory :=
      match rewardHist with
      | .err _ =>
        padTo20 [] (fun i => buildDummyRewardHistoryItem userKey i 0 now)
      | .ok rows =>
        padTo20 (parseRewardRows rows now)
          (fun i => buildDummyRewardHistoryItem userKey i
            (parseRewardRows rows now).length now) }

/-- The pre-error state used in the C9 counterexample: one real,
non-placeholder quest-history entry. -/
def prevStateEx : LoadState :=
  { weightHistory := [], periodGoal := none,
    questHistory := [oldRealQuestEntry], rewardHistory := [] }

/-! ## Claim C1: points-delta sequences -/

/-- C1 counterexample: starting from the initial balance 0, the delta
sequence `[-5, 3]` leaves the balance at `3` after the second step, but
`max(0, sum so far) = max(0, -2) = 0`; the claimed closed form
"balance after each step equals max(0, sum so far)" fails. -/
theorem C1_counterexample :
    applyDeltas 0 [-5, 3] = 3 ∧
    max 0 ((-5 : ℚ) + 3) = 0 ∧ applyDeltas 0 [-5, 3] ≠ max 0 ((-5 : ℚ) + 3) := by
  refine ⟨?_, ?_, ?_⟩ <;> norm_num [applyDeltas, applyDelta, max_def]

/-- C1 (amended): each step writes back `max 0 (current + delta)`; after
every step the balance is non-negative and is at least `max 0 (initial +
sum so far)` (intermediate clamping can only raise it above that closed
form; it equals it when no intermediate clamp fires). -/
theorem C1_applyDelta_clamped_monotone (b₀ : ℚ) (h₀ : 0 ≤ b₀) :
    (∀ ds d, applyDeltas b₀ (ds ++ [d]) = max 0 (applyDeltas b₀ ds + d)) ∧
    (∀ ds, 0 ≤ applyDeltas b₀ ds ∧
      max 0 (b₀ + ds.sum) ≤ applyDeltas b₀ ds) := by
  constructor
  · intro ds d
    simp [applyDeltas, List.foldl_append, applyDelta]
  · intro ds
    induction ds generalizing b₀ with
    | nil =>
      refine ⟨by simpa [applyDeltas] using h₀, ?_⟩
      simp only [applyDeltas, List.foldl_nil, List.sum_nil, add_zero]
      exact max_le h₀ le_rfl
    | cons d t ih =>
      have hstep : (0 : ℚ) ≤ applyDelta b₀ d := le_max_left 0 _
      obtain ⟨hpos, hge⟩ := ih (applyDelta b₀ d) hstep
      refine ⟨by simpa [applyDeltas] using hpos, ?_⟩
      have hone : b₀ + d ≤ applyDelta b₀ d := le_max_right 0 _
      have h2 : max 0 (b₀ + (d :: t).sum) ≤ max 0 (applyDelta b₀ d + t.sum) := by
        have : b₀ + (d :: t).sum = (b₀ + d) + t.sum := by
          simp [List.sum_cons]; ring
        rw [this]
        exact max_le_max le_rfl (by linarith)
      calc max 0 (b₀ + (d :: t).sum) ≤ max 0 (applyDelta b₀ d + t.sum) := h2
        _ ≤ applyDeltas (applyDelta b₀ d) t := hge
        _ = applyDeltas b₀ (d :: t) := by simp [applyDeltas]

/-- C1 amended-claim witness at balance 0 and deltas `[10, -3]`. -/
theorem C1_witness :
    applyDeltas 0 ([10] ++ [-3]) = max 0 (applyDeltas 0 [10] + (-3)) ∧
    0 ≤ applyDeltas 0 [10, -3] ∧
    max 0 ((0 : ℚ) + ([10, -3] : List ℚ).sum) ≤ applyDeltas 0 [10, -3] := by
  have h := C1_applyDelta_clamped_monotone 0 (by norm_num)
  exact ⟨h.1 [10] (-3), (h.2 [10, -3]).1, (h.2 [10, -3]).2⟩

/-! ## Claim C3: period progress ratio -/

/-- C3: when `goal = base` the ratio is `1` iff the current weight equals
the goal and `0` otherwise; when `goal ≠ base` the ratio is the clamp of
`(current - base)/(goal - base)` to `[0,1]`; and at the spec's concrete
points `ratio(70,70,70)=1`, `ratio(71,70,70)=0`, `ratio(68,70,65)=0.4`. -/
theorem C3_periodProgressRatio_spec :
    (∀ c b g : ℚ, (b = g →
        periodProgressRatio c b g = if c = g then 1 else 0) ∧
      (b ≠ g →
        periodProgressRatio c b g = min 1 (max 0 ((c - b) / (g - b))))) ∧
    periodProgressRatio 70 70 70 = 1 ∧
    periodProgressRatio 71 70 70 = 0 ∧
    periodProgressRatio 68 70 65 = 2/5 := by
  refine ⟨fun c b g => ⟨?_, ?_⟩,
    by norm_num [periodProgressRatio, clamp, max_def, min_def],
    by norm_num [periodProgressRatio, clamp, max_def, min_def],
    by norm_num [periodProgressRatio, clamp, max_def, min_def]⟩
  · intro hbg
    subst hbg
    simp [periodProgressRatio]
  · intro hbg
    have : g - b ≠ 0 := sub_ne_zero.mpr (Ne.symm hbg)
    simp [periodProgressRatio, this, clamp]

/-- C3 witness: instantiates the conditional parts at `(68,70,65)`. -/
theorem C3_witness :
    periodProgressRatio 68 70 65 = min 1 (max 0 (((68 : ℚ) - 70) / (65 - 70))) :=
  ((C3_periodProgressRatio_spec.1 68 70 65).2 (by norm_num))

/-! ## Claim C6: positional day/week/month comparison -/

/-- C6: with at least `n+1` samples the comparison is
`current - series[len-1-n]` with `hasData = true`; with fewer it is
reported as no-data (`hasData = false`), and in particular a series of
length 3 queried with offset 7 yields no-data.  The offset is positional
from the end of the series (the index `len-1-n`), not day arithmetic. -/
theorem C6_calculateComparison_spec :
    (∀ (h : List HomeWeightItem) (c : ℚ) (n : ℕ),
      (n + 1 ≤ h.length →
        ∃ it, h.get? (h.length - 1 - n) = some it ∧
          calculateComparison h c n = (c - it.weight, true)) ∧
      (h.length < n + 1 → calculateComparison h c n = (0, false))) ∧
    calculateComparison
      [⟨"3/1", 70, some "2024-03-01"⟩, ⟨"3/2", 69, some "2024-03-02"⟩,
       ⟨"3/10", 68, some "2024-03-10"⟩] 68 7 = (0, false) := by
  refine ⟨fun h c n => ⟨?_, ?_⟩, rfl⟩
  · intro hlen
    have hidx : h.length - 1 - n < h.length := by omega
    cases hv : h.get? (h.length - 1 - n) with
    | none =>
      rw [List.get?_eq_none] at hv
      omega
    | some it =>
      refine ⟨it, rfl, ?_⟩
      rw [List.get?_eq_getElem?] at hv
      simp [calculateComparison, if_neg (by omega : ¬ h.length < n + 1), hv]
  · intro hlen
    simp [calculateComparison, hlen]

/-- C6 witness: a 9-sample series queried with offset 7 has data and
compares against the sample 7 positions before the last one. -/
theorem C6_witness :
    ∃ it, exampleSeries9.get? (exampleSeries9.length - 1 - 7) = some it ∧
      calculateComparison exampleSeries9 66 7 = (66 - it.weight, true) :=
  (C6_calculateComparison_spec.1 exampleSeries9 66 7).1 (by decide)

/-! ## Claim C10: redeem is a no-op on insufficient points -/

/-- C10: when the reward exists and the user's points are strictly below
its cost, `handleRedeemReward` changes nothing — history and balance are
unchanged and no store write (history insert or point delta) is issued;
when `points ≥ cost`, the cost is deducted.  (When the id matches no
reward the call is likewise a no-op.) -/
theorem C10_handleRedeemReward_spec :
    ∀ (defs : List RewardDefinition) (rid : String) (p : ℚ)
      (hist : List RewardHistoryItem) (nid : String) (now : Int)
      (reward : RewardDefinition),
      defs.find? (fun r => r.id = rid) = some reward →
      (p < reward.cost →
        handleRedeemReward defs rid p hist nid now =
          { rewardHistory := hist, points := p,
            insertedHistoryRows := [], appliedDeltas := [] }) ∧
      (reward.cost ≤ p →
        (handleRedeemReward defs rid p hist nid now).points = p - reward.cost ∧
        (handleRedeemReward defs rid p hist nid now).appliedDeltas =
          [-reward.cost]) := by
  intro defs rid p hist nid now reward hfind
  constructor
  · intro hlt
    simp [handleRedeemReward, hfind, not_le.mpr hlt]
  · intro hle
    simp [handleRedeemReward, hfind, hle]

/-- C10 witness: a 100-point reward against a 50-point balance is a
no-op; against a 150-point balance the cost is deducted. -/
theorem C10_witness :
    (handleRedeemReward [⟨"r1", "ビール1本", 100, "beer"⟩] "r1" 50 [] "x" 0 =
      { rewardHistory := [], points := 50,
        insertedHistoryRows := [], appliedDeltas := [] }) ∧
    (handleRedeemReward [⟨"r1", "ビール1本", 100, "beer"⟩] "r1" 150 [] "x" 0).points =
      150 - 100 := by
  have h := C10_handleRedeemReward_spec [⟨"r1", "ビール1本", 100, "beer"⟩]
    "r1" 50 [] "x" 0 ⟨"r1", "ビール1本", 100, "beer"⟩ rfl
  have h2 := C10_handleRedeemReward_spec [⟨"r1", "ビール1本", 100, "beer"⟩]
    "r1" 150 [] "x" 0 ⟨"r1", "ビール1本", 100, "beer"⟩ rfl
  exact ⟨h.1 (by norm_num), (h2.2 (by norm_num)).1⟩

/-! ## Claim C7: history cap-and-pad -/

/-- Closed form of the `padTo20` push loop: starting at dummy index `i`,
it appends `20 - out.length` dummies with consecutive indices. -/
theorem padLoop_eq {T : Type} (f : ℕ → T) :
    ∀ (n : ℕ) (out : List T) (i : ℕ), 20 - out.length = n →
      padLoop out f i = out ++ (List.range n).map (fun j => f (i + j)) := by
  intro n
  induction n with
  | zero =>
    intro out i h
    unfold padLoop
    simp [show ¬ out.length < 20 by omega]
  | succ n ih =>
    intro out i h
    unfold padLoop
    rw [if_pos (by omega)]
    rw [ih (out ++ [f i]) (i + 1)
      (by simp only [List.length_append, List.length_cons, List.length_nil]; omega)]
    have hfun : (fun j => f (i + 1 + j)) = (fun j => f (i + Nat.succ j)) := by
      funext j
      congr 1
      omega
    simp [List.range_succ_eq_map, List.map_map, Function.comp, hfun]

/-- `padTo20 items f` is the first 20 real items followed by the dummies
`f 0, f 1, …` up to a total length of 20. -/
theorem padTo20_eq {T : Type} (items : List T) (f : ℕ → T) :
    padTo20 items f = items.take 20 ++ (List.range (20 - items.length)).map f := by
  unfold padTo20
  rw [padLoop_eq f (20 - items.length) items 0 rfl]
  have hf : (fun j => f (0 + j)) = f := by funext j; simp
  rw [hf]
  rcases le_or_lt 20 items.length with h | h
  · simp [Nat.sub_eq_zero_of_le h]
  · rw [List.take_append_eq_append_take]
    congr 1
    apply List.take_of_length_le
    simp

/-- C7 counterexample: with one real entry recorded at epoch 0 and
`Date.now() = 10^12`, the first synthesized placeholder (result index 1)
is timestamped strictly NEWER than the oldest real entry, refuting
"timestamped strictly older than the oldest real entry". -/
theorem C7_counterexample :
    (padTo20 [oldRealQuestEntry]
        (fun i => buildDummyQuestHistoryItem "jiiji" i 1 1000000000000)).get? 1 =
      some (buildDummyQuestHistoryItem "jiiji" 0 1 1000000000000) ∧
    (buildDummyQuestHistoryItem "jiiji" 0 1 1000000000000).isDummy = true ∧
    oldRealQuestEntry.occurredAt <
      (buildDummyQuestHistoryItem "jiiji" 0 1 1000000000000).occurredAt := by
  refine ⟨?_, rfl, ?_⟩
  · rw [padTo20_eq]
    rfl
  · show (0 : Int) < 1000000000000 - ((1 + 0 : ℕ) : Int) * (60 * 60 * 1000)
    norm_num

/-- C7 (amended): the result has length exactly 20 and is the (at most 20,
newest-first) real entries followed by placeholders `makeDummy 0, 1, …`;
each placeholder is tagged `isDummy`, takes its title and points
cyclically from the fixed palettes at index `(offset + i) % palette
length`, and is timestamped `offset + i` hours before the current time
(hence hourly-descending, but not necessarily older than the oldest real
entry).  Placeholders are only built for display and are never part of a
store write. -/
theorem C7_padTo20_spec (items : List QuestHistoryItem) (userKey : String)
    (now : Int) :
    (padTo20 items
        (fun i => buildDummyQuestHistoryItem userKey i items.length now)).length
      = 20 ∧
    padTo20 items (fun i => buildDummyQuestHistoryItem userKey i items.length now)
      = items.take 20 ++ (List.range (20 - items.length)).map
          (fun i => buildDummyQuestHistoryItem userKey i items.length now) ∧
    (∀ i, (buildDummyQuestHistoryItem userKey i items.length now).isDummy = true ∧
      (buildDummyQuestHistoryItem userKey i items.length now).occurredAt =
        now - (items.length + i : ℕ) * (60 * 60 * 1000) ∧
      (buildDummyQuestHistoryItem userKey i items.length now).title =
        (dummyQuestTitles.get? ((items.length + i) % 6)).getD "クエスト" ∧
      (buildDummyQuestHistoryItem userKey i items.length now).points =
        (dummyQuestPointsList.get? ((items.length + i) % 7)).getD 10) := by
  refine ⟨?_, padTo20_eq items _, fun i => ⟨rfl, rfl, rfl, rfl⟩⟩
  rw [padTo20_eq]
  simp only [List.length_append, List.length_take, List.length_map,
    List.length_range]
  omega

/-! ## Claim C8: legacy-schema fallback -/

/-- C8: the unscoped retry happens exactly on a scoped failure classified
as missing-user-column; when it happens the operation's result is the
unscoped attempt's (one retry, nothing further), otherwise it is the
scoped attempt's (no retry on success or on any other error class); and a
successful retried operation surfaces no error at all.  The classifier
accepts the PostgREST missing-column message and rejects an unrelated
error message. -/
theorem C8_fallbackRetry_spec {α : Type} (withUser withoutUser : StoreResult α) :
    (fallbackRetried withUser = true ↔
      ∃ m, withUser = StoreResult.err m ∧ isMissingUserColumnError m = true) ∧
    (fallbackRetried withUser = true →
      resolveWithFallback withUser withoutUser = withoutUser) ∧
    (fallbackRetried withUser = false →
      resolveWithFallback withUser withoutUser = withUser) ∧
    (∀ a : α, withoutUser = StoreResult.ok a → fallbackRetried withUser = true →
      surfacedErrors withUser withoutUser = []) ∧
    isMissingUserColumnError postgrestMissingUserMsg = true ∧
    isMissingUserColumnError "permission denied for table rewards" = false := by
  refine ⟨?_, ?_, ?_, ?_, by decide, by decide⟩
  · cases withUser with
    | ok d => simp [fallbackRetried]
    | err m => simp [fallbackRetried]
  · intro hr
    cases withUser with
    | ok d => simp [fallbackRetried] at hr
    | err m => simp [fallbackRetried] at hr; simp [resolveWithFallback, hr]
  · intro hr
    cases withUser with
    | ok d => simp [resolveWithFallback]
    | err m =>
      simp [fallbackRetried] at hr
      simp [resolveWithFallback, hr]
  · intro a ha hr
    subst ha
    cases withUser with
    | ok d => simp [fallbackRetried] at hr
    | err m =>
      simp [fallbackRetried] at hr
      simp [surfacedErrors, resolveWithFallback, hr]

/-! ## DateKey order lemmas -/

theorem charListLt_cons (a b : Char) (as bs : List Char) :
    charListLt (a :: as) (b :: bs) =
      if a < b then true else if b < a then false else charListLt as bs := rfl

theorem charListLt_irrefl : ∀ l : List Char, charListLt l l = false := by
  intro l
  induction l with
  | nil => rfl
  | cons a t ih =>
    rw [charListLt_cons, if_neg (lt_irrefl a), if_neg (lt_irrefl a)]
    exact ih

theorem charListLt_asymm :
    ∀ {a b : List Char}, charListLt a b = true → charListLt b a = false := by
  intro a
  induction a with
  | nil =>
    intro b h
    cases b with
    | nil => exact absurd h (by simp [charListLt])
    | cons y ys => rfl
  | cons x xs ih =>
    intro b h
    cases b with
    | nil => exact absurd h (by simp [charListLt])
    | cons y ys =>
      rw [charListLt_cons] at h
      rw [charListLt_cons]
      by_cases hxy : x < y
      · rw [if_neg (lt_asymm hxy), if_pos hxy]
      · rw [if_neg hxy] at h
        by_cases hyx : y < x
        · rw [if_pos hyx] at h
          cases h
        · rw [if_neg hyx] at h
          rw [if_neg hyx, if_neg hxy]
          exact ih h

theorem charListLt_conn :
    ∀ {a b : List Char}, charListLt a b = false → charListLt b a = false →
      a = b := by
  intro a
  induction a with
  | nil =>
    intro b h₁ _
    cases b with
    | nil => rfl
    | cons y ys => exact absurd h₁ (by simp [charListLt])
  | cons x xs ih =>
    intro b h₁ h₂
    cases b with
    | nil => exact absurd h₂ (by simp [charListLt])
    | cons y ys =>
      rw [charListLt_cons] at h₁ h₂
      by_cases hxy : x < y
      · rw [if_pos hxy] at h₁
        cases h₁
      · by_cases hyx : y < x
        · rw [if_pos hyx] at h₂
          cases h₂
        · rw [if_neg hxy, if_neg hyx] at h₁
          rw [if_neg hyx, if_neg hxy] at h₂
          have hx : x = y := le_antisymm (not_lt.mp hyx) (not_lt.mp hxy)
          rw [hx, ih h₁ h₂]

theorem charListLt_trans :
    ∀ {a b c : List Char}, charListLt a b = true → charListLt b c = true →
      charListLt a c = true := by
  intro a
  induction a with
  | nil =>
    intro b c h₁ h₂
    cases b with
    | nil => exact absurd h₁ (by simp [charListLt])
    | cons y ys =>
      cases c with
      | nil => exact absurd h₂ (by simp [charListLt])
      | cons z zs => rfl
  | cons x xs ih =>
    intro b c h₁ h₂
    cases b with
    | nil => exact absurd h₁ (by simp [charListLt])
    | cons y ys =>
      cases c with
      | nil => exact absurd h₂ (by simp [charListLt])
      | cons z zs =>
        rw [charListLt_cons] at h₁ h₂
        rw [charListLt_cons]
        by_cases hxy : x < y
        · by_cases hyz : y < z
          · rw [if_pos (lt_trans hxy hyz)]
          · by_cases hzy : z < y
            · rw [if_neg hyz, if_pos hzy] at h₂
              cases h₂
            · have hyz' : y = z := le_antisymm (not_lt.mp hzy) (not_lt.mp hyz)
              subst hyz'
              rw [if_pos hxy]
        · by_cases hyx : y < x
          · rw [if_neg hxy, if_pos hyx] at h₁
            cases h₁
          · have hxy' : x = y := le_antisymm (not_lt.mp hyx) (not_lt.mp hxy)
            subst hxy'
            rw [if_neg hxy, if_neg hyx] at h₁
            by_cases hxz : x < z
            · rw [if_pos hxz]
            · by_cases hzx : z < x
              · rw [if_neg hxz, if_pos hzx] at h₂
                cases h₂
              · rw [if_neg hxz, if_neg hzx] at h₂
                rw [if_neg hxz, if_neg hzx]
                exact ih h₁ h₂

theorem string_mk_data (s : String) : String.mk s.data = s := by
  cases s
  rfl

theorem string_eq_of_data_eq {a b : String} (h : a.data = b.data) : a = b := by
  cases a
  cases b
  exact congrArg String.mk h

theorem dateLt_irrefl (a : String) : dateLt a a = false :=
  charListLt_irrefl a.data

theorem dateLt_asymm {a b : String} (h : dateLt a b = true) :
    dateLt b a = false :=
  charListLt_asymm h

theorem dateLt_trans {a b c : String} (h₁ : dateLt a b = true)
    (h₂ : dateLt b c = true) : dateLt a c = true :=
  charListLt_trans h₁ h₂

theorem dateLe_refl (a : String) : dateLe a a = true := by
  simp [dateLe, dateLt_irrefl]

theorem dateLe_of_dateLt {a b : String} (h : dateLt a b = true) :
    dateLe a b = true := by
  simp [dateLe, dateLt_asymm h]

theorem dateLe_iff_not_dateLt {a b : String} :
    dateLe a b = true ↔ dateLt b a = false := by
  simp [dateLe]

theorem dateLe_total (a b : String) :
    dateLe a b = true ∨ dateLe b a = true := by
  by_cases h : dateLt b a = true
  · exact Or.inr (dateLe_of_dateLt h)
  · exact Or.inl (dateLe_iff_not_dateLt.mpr (Bool.eq_false_iff.mpr h))

theorem dateLe_antisymm {a b : String} (h₁ : dateLe a b = true)
    (h₂ : dateLe b a = true) : a = b := by
  rw [dateLe_iff_not_dateLt] at h₁ h₂
  exact string_eq_of_data_eq (charListLt_conn h₂ h₁)

theorem dateLe_trans {a b c : String} (h₁ : dateLe a b = true)
    (h₂ : dateLe b c = true) : dateLe a c = true := by
  rw [dateLe_iff_not_dateLt] at h₁ h₂ ⊢
  by_cases hca : dateLt c a = true
  · by_cases hab : dateLt a b = true
    · have := dateLt_trans hca hab
      rw [this] at h₂
      cases h₂
    · have hab' : a = b :=
        string_eq_of_data_eq (charListLt_conn (Bool.eq_false_iff.mpr hab) h₁)
      subst hab'
      rw [hca] at h₂
      cases h₂
  · exact Bool.eq_false_iff.mpr hca

/-! ## Claim C4: same-day weight recording -/

theorem replaceFirstOrPush_spec (iso ds : String) (w : ℚ) :
    ∀ hist : List WeightHistoryItem,
      hist.countP (fun h => decide (h.isoDate = iso)) ≤ 1 →
      (replaceFirstOrPush iso ds w hist).countP
          (fun h => decide (h.isoDate = iso)) = 1 ∧
      ∀ e ∈ replaceFirstOrPush iso ds w hist, e.isoDate = iso →
        e.weight = w ∧ e.date = ds := by
  intro hist
  induction hist with
  | nil =>
    intro _
    refine ⟨by simp [replaceFirstOrPush], ?_⟩
    intro e he _
    simp [replaceFirstOrPush] at he
    simp [he]
  | cons h t ih =>
    intro hc
    by_cases hh : h.isoDate = iso
    · rw [List.countP_cons_of_pos _ _ (by simp [hh])] at hc
      have hcount : t.countP (fun h => decide (h.isoDate = iso)) = 0 := by omega
      rw [replaceFirstOrPush, if_pos hh]
      refine ⟨?_, ?_⟩
      · rw [List.countP_cons_of_pos _ _ (by simp), hcount]
      · intro e he hiso
        rcases List.mem_cons.mp he with he | he
        · simp [he]
        · exact absurd (by simp [hiso] : decide (e.isoDate = iso) = true)
            (by simpa using List.countP_eq_zero.mp hcount e he)
    · rw [List.countP_cons_of_neg _ _ (by simp [hh])] at hc
      obtain ⟨ihc, ihm⟩ := ih hc
      rw [replaceFirstOrPush, if_neg hh]
      refine ⟨?_, ?_⟩
      · rw [List.countP_cons_of_neg _ _ (by simp [hh]), ihc]
      · intro e he hiso
        rcases List.mem_cons.mp he with he | he
        · exact absurd (he ▸ hiso) hh
        · exact ihm e he hiso

theorem upsertWeightHistory_spec (hist : List WeightHistoryItem)
    (iso ds : String) (w : ℚ)
    (hc : hist.countP (fun h => decide (h.isoDate = iso)) ≤ 1) :
    (upsertWeightHistory hist iso ds w).countP
        (fun h => decide (h.isoDate = iso)) = 1 ∧
    ∀ e ∈ upsertWeightHistory hist iso ds w, e.isoDate = iso →
      e.weight = w ∧ e.date = ds := by
  obtain ⟨h1, h2⟩ := replaceFirstOrPush_spec iso ds w hist hc
  have hperm := List.perm_insertionSort whLe (replaceFirstOrPush iso ds w hist)
  refine ⟨(hperm.countP_eq _).trans h1, ?_⟩
  intro e he hiso
  exact h2 e ((List.mem_insertionSort whLe).mp he) hiso

/-- C4: recording `w₁` on day `d` and then `w₂` on the same day leaves the
weight history with exactly one entry for `d`, and that entry's weight is
`w₂` (the second record replaces the first); the +10 record bonus is a
per-call delta, so two calls move a non-negative balance up by exactly
20.  The hypothesis is the History Series invariant (at most one entry
per date) on the starting history. -/
theorem C4_record_twice_same_day (hist : List WeightHistoryItem)
    (d ds : String) (w₁ w₂ p : ℚ)
    (hc : hist.countP (fun h => decide (h.isoDate = d)) ≤ 1) (hp : 0 ≤ p) :
    ((upsertWeightHistory (upsertWeightHistory hist d ds w₁) d ds w₂).countP
        (fun h => decide (h.isoDate = d)) = 1 ∧
      ∀ e ∈ upsertWeightHistory (upsertWeightHistory hist d ds w₁) d ds w₂,
        e.isoDate = d → e.weight = w₂) ∧
    applyDelta (applyDelta p 10) 10 = p + 20 := by
  have step1 := upsertWeightHistory_spec hist d ds w₁ hc
  have step2 := upsertWeightHistory_spec (upsertWeightHistory hist d ds w₁)
    d ds w₂ (le_of_eq step1.1)
  refine ⟨⟨step2.1, fun e he hiso => (step2.2 e he hiso).1⟩, ?_⟩
  have h1 : applyDelta p 10 = p + 10 := by
    unfold applyDelta
    exact max_eq_right (by linarith)
  rw [h1]
  unfold applyDelta
  rw [max_eq_right (by linarith)]
  ring

/-- C4 witness: from an empty history, record 70.2 then 70.0 on
2024-03-01. -/
theorem C4_witness :
    ((upsertWeightHistory (upsertWeightHistory [] "2024-03-01" "3/1" (702/10))
        "2024-03-01" "3/1" 70).countP
        (fun h => decide (h.isoDate = "2024-03-01")) = 1 ∧
      ∀ e ∈ upsertWeightHistory
          (upsertWeightHistory [] "2024-03-01" "3/1" (702/10))
          "2024-03-01" "3/1" 70,
        e.isoDate = "2024-03-01" → e.weight = 70) ∧
    applyDelta (applyDelta 0 10) 10 = 0 + 20 :=
  C4_record_twice_same_day [] "2024-03-01" "3/1" (702/10) 70 0
    (by decide) (le_refl 0)

/-! ## Claim C5: active period goal after save -/

theorem isoShapeChars_length {l : List Char} (h : isoShapeChars l = true) :
    l.length = 10 := by
  unfold isoShapeChars at h
  split at h
  · rfl
  · cases h

theorem normalizeISODate_of_shape {s : String} (h : isIsoDateShape s = true) :
    normalizeISODate (some s) = some s := by
  have h10 : s.data.length = 10 := isoShapeChars_length h
  have htake : s.data.take 10 = s.data := by
    conv_lhs => rw [← h10]
    exact List.take_length s.data
  simp only [normalizeISODate]
  rw [if_neg (by rw [h10]; simp)]
  rw [htake, string_mk_data]
  simp [h]

theorem selectExact_upsert (g : PeriodGoal) :
    ∀ store : List PeriodGoal,
      selectExactPeriodGoal (upsertPeriodGoalRow g store)
        g.start_date g.end_date = some g := by
  intro store
  induction store with
  | nil => simp [upsertPeriodGoalRow, selectExactPeriodGoal]
  | cons r t ih =>
    by_cases hk : r.start_date = g.start_date ∧ r.end_date = g.end_date
    · rw [upsertPeriodGoalRow, if_pos hk]
      simp [selectExactPeriodGoal]
    · rw [upsertPeriodGoalRow, if_neg hk]
      simp only [selectExactPeriodGoal] at ih ⊢
      rw [List.find?_cons_of_neg]
      · exact ih
      · simp only [Bool.and_eq_true, decide_eq_true_eq, not_and]
        intro h1 h2
        exact hk ⟨h1, h2⟩

/-- C5: saving a period goal whose range contains today shows that goal
immediately — optimistically before the store round-trip, and again after
the post-save re-derivation, because the exact just-saved row is fetched
and preferred over any other stored goal (so the UI does not bounce back
to a stale goal). -/
theorem C5_saveGoals_active_goal (store : List PeriodGoal) (g : PeriodGoal)
    (today : String)
    (hs : isIsoDateShape g.start_date = true)
    (he : isIsoDateShape g.end_date = true)
    (hts : dateLe g.start_date today = true)
    (hte : dateLe today g.end_date = true) :
    (saveGoalsPeriod store g today).optimisticPeriodGoal = some g ∧
    (saveGoalsPeriod store g today).finalPeriodGoal = some g := by
  refine ⟨rfl, ?_⟩
  simp only [saveGoalsPeriod]
  rw [selectExact_upsert g store]
  simp only [normalizeISODate_of_shape hs, normalizeISODate_of_shape he]

/-- C5 witness: the spec's scenario — stored goal A (January), save goal B
(February) while today is 2024-02-15; both the optimistic and the
re-derived state show B. -/
theorem C5_witness :
    (saveGoalsPeriod [⟨"2024-01-01", "2024-01-31", some 70⟩]
        ⟨"2024-02-01", "2024-02-28", some 68⟩ "2024-02-15").optimisticPeriodGoal
      = some ⟨"2024-02-01", "2024-02-28", some 68⟩ ∧
    (saveGoalsPeriod [⟨"2024-01-01", "2024-01-31", some 70⟩]
        ⟨"2024-02-01", "2024-02-28", some 68⟩ "2024-02-15").finalPeriodGoal
      = some ⟨"2024-02-01", "2024-02-28", some 68⟩ :=
  C5_saveGoals_active_goal _ _ _ (by decide) (by decide) (by decide) (by decide)

/-! ## Claim C2: baseline resolution -/

theorem find?_perm_eq_of_unique {α : Type} {l₁ l₂ : List α} (hp : l₁.Perm l₂)
    (p : α → Bool)
    (uniq : ∀ x ∈ l₁, ∀ y ∈ l₁, p x = true → p y = true → x = y) :
    l₁.find? p = l₂.find? p := by
  cases h₁ : l₁.find? p with
  | none =>
    cases h₂ : l₂.find? p with
    | none => rfl
    | some y =>
      have hy : p y = true := List.find?_some h₂
      have hmem : y ∈ l₁ := hp.mem_iff.mpr (List.mem_of_find?_eq_some h₂)
      exact absurd hy (List.find?_eq_none.mp h₁ y hmem)
  | some x =>
    have hx : p x = true := List.find?_some h₁
    have hxm : x ∈ l₁ := List.mem_of_find?_eq_some h₁
    cases h₂ : l₂.find? p with
    | none =>
      exact absurd hx (List.find?_eq_none.mp h₂ x (hp.mem_iff.mp hxm))
    | some y =>
      have hy : p y = true := List.find?_some h₂
      have hym : y ∈ l₁ := hp.mem_iff.mpr (List.mem_of_find?_eq_some h₂)
      rw [uniq x hxm y hym hx hy]

theorem find?_sorted_is_min {l : List (String × ℚ)} (hs : l.Sorted rowLe)
    {p : (String × ℚ) → Bool} {x : String × ℚ} (h : l.find? p = some x) :
    ∀ y ∈ l, p y = true → dateLe x.1 y.1 = true := by
  induction l with
  | nil => cases h
  | cons a t ih =>
    rw [List.sorted_cons] at hs
    by_cases pa : p a = true
    · rw [List.find?_cons_of_pos _ pa] at h
      injection h with h'
      subst h'
      intro y hy _
      rcases List.mem_cons.mp hy with rfl | hy
      · exact dateLe_refl _
      · exact hs.1 y hy
    · rw [List.find?_cons_of_neg _ pa] at h
      intro y hy hpy
      rcases List.mem_cons.mp hy with rfl | hy
      · exact absurd hpy pa
      · exact ih hs.2 h y hy hpy

theorem find?_sorted_is_max {l : List (String × ℚ)}
    (hs : l.Sorted (fun a b => rowLe b a))
    {p : (String × ℚ) → Bool} {x : String × ℚ} (h : l.find? p = some x) :
    ∀ y ∈ l, p y = true → dateLe y.1 x.1 = true := by
  induction l with
  | nil => cases h
  | cons a t ih =>
    rw [List.sorted_cons] at hs
    by_cases pa : p a = true
    · rw [List.find?_cons_of_pos _ pa] at h
      injection h with h'
      subst h'
      intro y hy _
      rcases List.mem_cons.mp hy with rfl | hy
      · exact dateLe_refl _
      · exact hs.1 y hy
    · rw [List.find?_cons_of_neg _ pa] at h
      intro y hy hpy
      rcases List.mem_cons.mp hy with rfl | hy
      · exact absurd hpy pa
      · exact ih hs.2 h y hy hpy

theorem maxByIso_ne_none (x : String × ℚ) (t : List (String × ℚ)) :
    maxByIso (x :: t) ≠ none := by
  simp only [maxByIso]
  cases maxByIso t with
  | none => simp
  | some m => by_cases hc : dateLt m.1 x.1 = true <;> simp [hc]

theorem minByIso_ne_none (x : String × ℚ) (t : List (String × ℚ)) :
    minByIso (x :: t) ≠ none := by
  simp only [minByIso]
  cases minByIso t with
  | none => simp
  | some m => by_cases hc : dateLt x.1 m.1 = true <;> simp [hc]

theorem maxByIso_mem_max :
    ∀ {l : List (String × ℚ)} {m}, maxByIso l = some m →
      m ∈ l ∧ ∀ y ∈ l, dateLe y.1 m.1 = true := by
  intro l
  induction l with
  | nil => intro m hm; cases hm
  | cons x t ih =>
    intro m hm
    simp only [maxByIso] at hm
    cases ht : maxByIso t with
    | none =>
      simp only [ht] at hm
      injection hm with hm'
      subst hm'
      cases t with
      | nil =>
        refine ⟨List.mem_cons_self _ _, ?_⟩
        intro y hy
        rcases List.mem_cons.mp hy with rfl | hy
        · exact dateLe_refl _
        · cases hy
      | cons z zs => exact absurd ht (maxByIso_ne_none z zs)
    | some m' =>
      simp only [ht] at hm
      obtain ⟨hmem, hmax⟩ := ih ht
      by_cases hc : dateLt m'.1 x.1 = true
      · rw [if_pos hc] at hm
        injection hm with hm'
        subst hm'
        refine ⟨List.mem_cons_self _ _, ?_⟩
        intro y hy
        rcases List.mem_cons.mp hy with rfl | hy
        · exact dateLe_refl _
        · exact dateLe_trans (hmax y hy) (dateLe_of_dateLt hc)
      · rw [if_neg hc] at hm
        injection hm with hm'
        subst hm'
        refine ⟨List.mem_cons_of_mem _ hmem, ?_⟩
        intro y hy
        rcases List.mem_cons.mp hy with rfl | hy
        · exact dateLe_iff_not_dateLt.mpr (Bool.eq_false_iff.mpr hc)
        · exact hmax y hy

theorem minByIso_mem_min :
    ∀ {l : List (String × ℚ)} {m}, minByIso l = some m →
      m ∈ l ∧ ∀ y ∈ l, dateLe m.1 y.1 = true := by
  intro l
  induction l with
  | nil => intro m hm; cases hm
  | cons x t ih =>
    intro m hm
    simp only [minByIso] at hm
    cases ht : minByIso t with
    | none =>
      simp only [ht] at hm
      injection hm with hm'
      subst hm'
      cases t with
      | nil =>
        refine ⟨List.mem_cons_self _ _, ?_⟩
        intro y hy
        rcases List.mem_cons.mp hy with rfl | hy
        · exact dateLe_refl _
        · cases hy
      | cons z zs => exact absurd ht (minByIso_ne_none z zs)
    | some m' =>
      simp only [ht] at hm
      obtain ⟨hmem, hmin⟩ := ih ht
      by_cases hc : dateLt x.1 m'.1 = true
      · rw [if_pos hc] at hm
        injection hm with hm'
        subst hm'
        refine ⟨List.mem_cons_self _ _, ?_⟩
        intro y hy
        rcases List.mem_cons.mp hy with rfl | hy
        · exact dateLe_refl _
        · exact dateLe_trans (dateLe_of_dateLt hc) (hmin y hy)
      · rw [if_neg hc] at hm
        injection hm with hm'
        subst hm'
        refine ⟨List.mem_cons_of_mem _ hmem, ?_⟩
        intro y hy
        rcases List.mem_cons.mp hy with rfl | hy
        · exact dateLe_iff_not_dateLt.mpr (Bool.eq_false_iff.mpr hc)
        · exact hmin y hy

theorem sortedRows_sorted (wh : List HomeWeightItem) :
    (sortedRows wh).Sorted rowLe := by
  haveI : IsTotal (String × ℚ) rowLe := ⟨fun a b => dateLe_total a.1 b.1⟩
  haveI : IsTrans (String × ℚ) rowLe := ⟨fun a b c h₁ h₂ => dateLe_trans h₁ h₂⟩
  exact List.sorted_insertionSort rowLe _

theorem sortedRows_perm (wh : List HomeWeightItem) :
    (sortedRows wh).Perm (cleanRows wh) :=
  List.perm_insertionSort rowLe _

/-- Scanning the sorted rows backwards for the first satisfier of `p`
computes the `p`-satisfier with the greatest date (when dates are
pairwise distinct). -/
theorem find?_rev_eq_maxByIso (wh : List HomeWeightItem)
    (hnd : ((cleanRows wh).map Prod.fst).Nodup) (p : (String × ℚ) → Bool) :
    (sortedRows wh).reverse.find? p = maxByIso ((cleanRows wh).filter p) := by
  have hperm := sortedRows_perm wh
  have hrevsor : (sortedRows wh).reverse.Sorted (fun a b => rowLe b a) :=
    List.pairwise_reverse.mpr (sortedRows_sorted wh)
  cases hR : (sortedRows wh).reverse.find? p with
  | none =>
    have hfil : (cleanRows wh).filter p = [] := by
      rw [List.filter_eq_nil_iff]
      intro y hy
      exact List.find?_eq_none.mp hR y
        (List.mem_reverse.mpr (hperm.mem_iff.mpr hy))
    rw [hfil]
    rfl
  | some x =>
    have hx : p x = true := List.find?_some hR
    have hxm : x ∈ cleanRows wh :=
      hperm.mem_iff.mp (List.mem_reverse.mp (List.mem_of_find?_eq_some hR))
    have hxmax := find?_sorted_is_max hrevsor hR
    cases hM : maxByIso ((cleanRows wh).filter p) with
    | none =>
      cases hf : (cleanRows wh).filter p with
      | nil =>
        have := List.mem_filter.mpr ⟨hxm, hx⟩
        rw [hf] at this
        cases this
      | cons z zs =>
        rw [hf] at hM
        exact absurd hM (maxByIso_ne_none z zs)
    | some m =>
      obtain ⟨hmem, hmax⟩ := maxByIso_mem_max hM
      have hmL : m ∈ cleanRows wh := (List.mem_filter.mp hmem).1
      have hpm : p m = true := (List.mem_filter.mp hmem).2
      have hml : dateLe m.1 x.1 = true :=
        hxmax m (List.mem_reverse.mpr (hperm.mem_iff.mpr hmL)) hpm
      have hlm : dateLe x.1 m.1 = true :=
        hmax x (List.mem_filter.mpr ⟨hxm, hx⟩)
      rw [List.inj_on_of_nodup_map hnd hxm hmL (dateLe_antisymm hlm hml)]

/-- Scanning the sorted rows forwards for the first satisfier of `p`
computes the `p`-satisfier with the least date (when dates are pairwise
distinct). -/
theorem find?_eq_minByIso (wh : List HomeWeightItem)
    (hnd : ((cleanRows wh).map Prod.fst).Nodup) (p : (String × ℚ) → Bool) :
    (sortedRows wh).find? p = minByIso ((cleanRows wh).filter p) := by
  have hperm := sortedRows_perm wh
  have hsor := sortedRows_sorted wh
  cases hR : (sortedRows wh).find? p with
  | none =>
    have hfil : (cleanRows wh).filter p = [] := by
      rw [List.filter_eq_nil_iff]
      intro y hy
      exact List.find?_eq_none.mp hR y (hperm.mem_iff.mpr hy)
    rw [hfil]
    rfl
  | some x =>
    have hx : p x = true := List.find?_some hR
    have hxm : x ∈ cleanRows wh :=
      hperm.mem_iff.mp (List.mem_of_find?_eq_some hR)
    have hxmin := find?_sorted_is_min hsor hR
    cases hM : minByIso ((cleanRows wh).filter p) with
    | none =>
      cases hf : (cleanRows wh).filter p with
      | nil =>
        have := List.mem_filter.mpr ⟨hxm, hx⟩
        rw [hf] at this
        cases this
      | cons z zs =>
        rw [hf] at hM
        exact absurd hM (minByIso_ne_none z zs)
    | some m =>
      obtain ⟨hmem, hmin⟩ := minByIso_mem_min hM
      have hmL : m ∈ cleanRows wh := (List.mem_filter.mp hmem).1
      have hpm : p m = true := (List.mem_filter.mp hmem).2
      have hml : dateLe x.1 m.1 = true :=
        hxmin m (hperm.mem_iff.mpr hmL) hpm
      have hlm : dateLe m.1 x.1 = true :=
        hmin x (List.mem_filter.mpr ⟨hxm, hx⟩)
      rw [List.inj_on_of_nodup_map hnd hxm hmL (dateLe_antisymm hml hlm)]

/-- Rule 1's exact-date lookup gives the same (unique) sample whether the
rows are scanned sorted or in input order. -/
theorem find?_exact_eq (wh : List HomeWeightItem) (s : String)
    (hnd : ((cleanRows wh).map Prod.fst).Nodup) :
    (sortedRows wh).find? (fun r => decide (r.1 = s)) =
      (cleanRows wh).find? (fun r => decide (r.1 = s)) := by
  refine find?_perm_eq_of_unique (sortedRows_perm wh) _ ?_
  intro x hx y hy hpx hpy
  rw [decide_eq_true_eq] at hpx hpy
  have hxc := (sortedRows_perm wh).mem_iff.mp hx
  have hyc := (sortedRows_perm wh).mem_iff.mp hy
  exact List.inj_on_of_nodup_map hnd hxc hyc (hpx.trans hpy.symm)

/-- C2 (amended): on every series whose valid samples have pairwise
distinct dates (the History Series invariant), `findBaselineWeight`
resolves the baseline by exactly the spec's four-rule first-match order —
(1) the sample on the start date, (2) the most recent sample strictly
before it, (3) the earliest sample within the period, (4) the earliest
sample strictly after the start — and returns no baseline on an empty
series.  At the spec's concrete inputs the first series gives baseline 70
(rule 2 selects the 2024-01-01 sample), not 68, and the second gives
68. -/
theorem C2_findBaseline_resolution :
    (∀ (wh : List HomeWeightItem) (s e : String),
      ((cleanRows wh).map Prod.fst).Nodup →
      findBaselineWeight wh s e = findBaselineSpec wh s e) ∧
    (∀ s e, findBaselineWeight [] s e = none) ∧
    findBaselineWeight
      [⟨"1/1", 70, some "2024-01-01"⟩, ⟨"1/10", 68, some "2024-01-10"⟩]
      "2024-01-05" "2024-01-20" = some 70 ∧
    findBaselineWeight [⟨"1/10", 68, some "2024-01-10"⟩]
      "2024-01-01" "2024-01-20" = some 68 := by
  refine ⟨?_, fun s e => rfl, rfl, rfl⟩
  intro wh s e hnd
  by_cases h0 : (sortedRows wh).length = 0
  · have hR : sortedRows wh = [] := List.length_eq_zero.mp h0
    have hL : cleanRows wh = [] :=
      ((hR ▸ sortedRows_perm wh :
        ([] : List (String × ℚ)).Perm (cleanRows wh)).symm).eq_nil
    unfold findBaselineWeight
    rw [if_pos h0]
    simp [findBaselineSpec, hL, maxByIso, minByIso]
  · unfold findBaselineWeight findBaselineSpec
    rw [if_neg h0]
    rw [find?_exact_eq wh s hnd]
    rw [find?_rev_eq_maxByIso wh hnd (fun r => dateLt r.1 s)]
    rw [find?_eq_minByIso wh hnd (fun r => dateLe s r.1 && dateLe r.1 e)]
    rw [find?_eq_minByIso wh hnd (fun r => dateLt s r.1)]

/-- C2 counterexample: on the spec's first concrete series the code (and
the spec's own rule 2) yields baseline 70 — the most recent sample
strictly before 2024-01-05 is the 2024-01-01 one with weight 70 — not the
claimed 68. -/
theorem C2_counterexample :
    findBaselineWeight
      [⟨"1/1", 70, some "2024-01-01"⟩, ⟨"1/10", 68, some "2024-01-10"⟩]
      "2024-01-05" "2024-01-20" = some 70 ∧
    (some (70 : ℚ) ≠ some 68) := by
  exact ⟨rfl, by norm_num⟩

/-! ## Claim C9: failed reads and UI state -/

/-- C9 counterexample: with one real quest-history entry in state, a
failing quest-history read does not leave that state unchanged — it is
replaced by a fully placeholder-padded list of length 20. -/
theorem C9_counterexample :
    (loadLatestUpdate prevStateEx "jiiji" 1000000000000
        (.ok []) (.ok []) (.ok []) (.err "fetch failed") (.ok [])).questHistory
      ≠ prevStateEx.questHistory ∧
    (loadLatestUpdate prevStateEx "jiiji" 1000000000000
        (.ok []) (.ok []) (.ok []) (.err "fetch failed")
        (.ok [])).questHistory.length = 20 ∧
    prevStateEx.questHistory.length = 1 := by
  have hq : (loadLatestUpdate prevStateEx "jiiji" 1000000000000
      (.ok []) (.ok []) (.ok []) (.err "fetch failed") (.ok [])).questHistory =
      padTo20 [] (fun i => buildDummyQuestHistoryItem "jiiji" i 0 1000000000000) :=
    rfl
  have hlen : (padTo20 ([] : List QuestHistoryItem)
      (fun i => buildDummyQuestHistoryItem "jiiji" i 0 1000000000000)).length
      = 20 := by
    rw [padTo20_eq]
    simp
  refine ⟨?_, hq ▸ hlen, rfl⟩
  rw [hq]
  intro hcontra
  have hlen2 := congrArg List.length hcontra
  rw [hlen] at hlen2
  simp [prevStateEx] at hlen2

/-- C9 (amended): on a failing read, weight history and the period goal
are left unchanged (the latter also when the active query returns no row
and the latest-fallback query fails), but quest history and reward
history are not: a failing read there resets the state to a fully
placeholder-padded 20-item list, every entry tagged non-authoritative. -/
theorem C9_failed_reads (prev : LoadState) (userKey : String) (now : Int)
    (pgActive pgLatest : StoreResult (List PeriodGoal))
    (weights : StoreResult (List WeightRow))
    (questHist : StoreResult (List QuestHistoryRow))
    (rewardHist : StoreResult (List RewardHistoryRow)) :
    (∀ m, weights = StoreResult.err m →
      (loadLatestUpdate prev userKey now pgActive pgLatest weights questHist
        rewardHist).weightHistory = prev.weightHistory) ∧
    (∀ m, pgActive = StoreResult.err m →
      (loadLatestUpdate prev userKey now pgActive pgLatest weights questHist
        rewardHist).periodGoal = prev.periodGoal) ∧
    (∀ m rows, pgActive = StoreResult.ok rows → rows.head? = none →
      pgLatest = StoreResult.err m →
      (loadLatestUpdate prev userKey now pgActive pgLatest weights questHist
        rewardHist).periodGoal = prev.periodGoal) ∧
    (∀ m, questHist = StoreResult.err m →
      (loadLatestUpdate prev userKey now pgActive pgLatest weights questHist
          rewardHist).questHistory =
        padTo20 [] (fun i => buildDummyQuestHistoryItem userKey i 0 now) ∧
      ∀ x ∈ (loadLatestUpdate prev userKey now pgActive pgLatest weights
          questHist rewardHist).questHistory, x.isDummy = true) ∧
    (∀ m, rewardHist = StoreResult.err m →
      (loadLatestUpdate prev userKey now pgActive pgLatest weights questHist
          rewardHist).rewardHistory =
        padTo20 [] (fun i => buildDummyRewardHistoryItem userKey i 0 now) ∧
      ∀ x ∈ (loadLatestUpdate prev userKey now pgActive pgLatest weights
          questHist rewardHist).rewardHistory, x.isDummy = true) := by
  refine ⟨?_, ?_, ?_, ?_, ?_⟩
  · intro m hm
    subst hm
    rfl
  · intro m hm
    subst hm
    rfl
  · intro m rows hrows hhead hm
    subst hrows
    subst hm
    simp only [loadLatestUpdate, hhead]
  · intro m hm
    subst hm
    refine ⟨rfl, ?_⟩
    intro x hx
    simp only [loadLatestUpdate] at hx
    rw [padTo20_eq] at hx
    simp only [List.take_nil, List.nil_append, List.length_nil, Nat.sub_zero,
      List.mem_map, List.mem_range] at hx
    obtain ⟨i, _, rfl⟩ := hx
    rfl
  · intro m hm
    subst hm
    refine ⟨rfl, ?_⟩
    intro x hx
    simp only [loadLatestUpdate] at hx
    rw [padTo20_eq] at hx
    simp only [List.take_nil, List.nil_append, List.length_nil, Nat.sub_zero,
      List.mem_map, List.mem_range] at hx
    obtain ⟨i, _, rfl⟩ := hx
    rfl
